import Mathlib

/-!
Verification of `src/main.py` of phenome/preview-proxy: an on-demand
compute-activation proxy that resolves a request path to a Docker image
reference, provisions (at most) one container per reference under a global
lock, health-gates it, forwards traffic, and reaps idle containers and
images in a background loop.

Strings of the Python source are modelled as `List Char`; Python's
`str.strip('/')`, `str.split('/')`, `'/'.join(...)` and
`str.replace(old, new)` (single-character pattern) are embedded below.
Timestamps are `Int` (`time.time()` values), the access ledger
`resource_last_access` is an association list from image name to
last-access time, and the Docker client is an explicit oracle record whose
fields give the outcome of each API call the code makes.
-/

namespace PreviewProxy

/-- Python `s.strip('/')` on a character list: drop `'/'` from both ends. -/
def stripSlashes (s : List Char) : List Char :=
  ((s.dropWhile (fun c => c == '/')).reverse.dropWhile (fun c => c == '/')).reverse

/-- Python `s.split('/')`: split on every `'/'`; always returns at least one
(possibly empty) piece, e.g. `"".split('/') == ['']`. -/
def splitSlashes : List Char → List (List Char)
  | [] => [[]]
  | c :: rest =>
    match splitSlashes rest with
    | [] => [[]]
    | p :: ps => if c == '/' then [] :: p :: ps else (c :: p) :: ps

/-- Python `"/".join(parts)`. -/
def joinSlashes : List (List Char) → List Char
  | [] => []
  | [p] => p
  | p :: ps => p ++ '/' :: joinSlashes ps

/-- Python `s.replace(pat, rep)` for a single-character pattern `pat`:
each occurrence of the character is replaced by `rep`. -/
def replaceChar (pat : Char) (rep : List Char) : List Char → List Char
  | [] => []
  | c :: s => (if c == pat then rep else [c]) ++ replaceChar pat rep s

/-- Function `get_container_name` (main.py:79-82): sanitize the image tag by
`replace('/', '--')` then `replace(':', '-')` and prepend `"proxy-child-"`. -/
def get_container_name (image_tag : List Char) : List Char :=
  "proxy-child-".data ++ replaceChar ':' ['-'] (replaceChar '/' ['-', '-'] image_tag)

/-- Function `resolve_image_and_path` (main.py:179-188), fixed-base mode: the first
path segment is the tag, the reference is `IMAGE:tag`, the residual path is
the remaining segments joined by `'/'`. Returns `none` exactly when the code
returns `(None, None)`. -/
def resolve_image_and_path (IMAGE : List Char) (path : List Char) :
    Option (List Char × List Char) :=
  match splitSlashes (stripSlashes path) with
  | [] => none
  | tag :: rest =>
    if tag = [] then none
    else some (IMAGE ++ ':' :: tag, joinSlashes rest)

/-! ### Basic lemmas about the string model -/

lemma splitSlashes_ne_nil (s : List Char) : splitSlashes s ≠ [] := by
  cases s with
  | nil => simp [splitSlashes]
  | cons c rest =>
    simp only [splitSlashes]
    cases h : splitSlashes rest with
    | nil => simp
    | cons p ps =>
      by_cases hc : c == '/' <;> simp [hc]

lemma dropWhile_head_false (f : Char → Bool) :
    ∀ (l : List Char) (c : Char) (t : List Char), l.dropWhile f = c :: t → f c = false := by
  intro l
  induction l with
  | nil => intro c t h; simp [List.dropWhile] at h
  | cons a l ih =>
    intro c t h
    by_cases ha : f a
    · rw [List.dropWhile_cons_of_pos ha] at h
      exact ih c t h
    · rw [List.dropWhile_cons_of_neg ha] at h
      cases h
      exact Bool.of_not_eq_true ha

lemma stripSlashes_eq_nil_iff (p : List Char) :
    stripSlashes p = [] ↔ ∀ c ∈ p, c = '/' := by
  unfold stripSlashes
  rw [List.reverse_eq_nil_iff]
  constructor
  · intro h c hc
    have hsplit := (List.takeWhile_append_dropWhile
      (p := fun c => c == '/') (l := p)).symm
    rw [hsplit] at hc
    rcases List.mem_append.mp hc with hmem | hmem
    · have := List.mem_takeWhile_imp hmem
      simpa using this
    · -- c is in the middle part, which is all slashes by h
      have hsplit2 := (List.takeWhile_append_dropWhile
        (p := fun c => c == '/')
        (l := (p.dropWhile (fun c => c == '/')).reverse)).symm
      rw [h, List.append_nil] at hsplit2
      have hc' : c ∈ (p.dropWhile (fun c => c == '/')).reverse :=
        List.mem_reverse.mpr hmem
      rw [hsplit2] at hc'
      have := List.mem_takeWhile_imp hc'
      simpa using this
  · intro h
    rw [List.dropWhile_eq_nil_iff]
    intro x hx
    have hx' : x ∈ p.dropWhile (fun c => c == '/') := List.mem_reverse.mp hx
    have : x ∈ p := List.dropWhile_subset _ hx'
    simpa using h x this

lemma stripSlashes_head_not_slash (p : List Char) (c : Char) (t : List Char)
    (h : stripSlashes p = c :: t) : (c == '/') = false := by
  unfold stripSlashes at h
  set d := p.dropWhile (fun c => c == '/') with hd
  have hsuff : d.reverse.dropWhile (fun c => c == '/') <:+ d.reverse :=
    List.dropWhile_suffix _
  obtain ⟨pre, hpre⟩ := hsuff
  have hpref : (d.reverse.dropWhile (fun c => c == '/')).reverse <+: d :=
    ⟨pre.reverse, by
      rw [← List.reverse_append, hpre, List.reverse_reverse]⟩
  rw [h] at hpref
  obtain ⟨r, hr⟩ := hpref
  exact dropWhile_head_false (fun c => c == '/') p c (t ++ r)
    (by rw [← hd, ← hr]; simp)

lemma splitSlashes_cons_head (c : Char) (t : List Char) (h : (c == '/') = false) :
    ∃ seg rest, splitSlashes (c :: t) = (c :: seg) :: rest := by
  simp only [splitSlashes]
  cases hs : splitSlashes t with
  | nil => exact absurd hs (splitSlashes_ne_nil t)
  | cons p ps => exact ⟨p, ps, by simp [h]⟩

/-- Resolution characterization used by C4: resolution fails exactly when
the path has no non-empty segment, i.e. consists only of `'/'` characters. -/
lemma resolve_eq_none_iff (IMAGE p : List Char) :
    resolve_image_and_path IMAGE p = none ↔ ∀ c ∈ p, c = '/' := by
  rw [← stripSlashes_eq_nil_iff]
  unfold resolve_image_and_path
  cases hs : stripSlashes p with
  | nil => simp [hs, splitSlashes]
  | cons c t =>
    have hc := stripSlashes_head_not_slash p c t hs
    obtain ⟨seg, rest, hsp⟩ := splitSlashes_cons_head c t hc
    simp [hsp]

/-! ### C2: injectivity of the container naming -/

lemma replaceChar_append (pat : Char) (rep : List Char) (s t : List Char) :
    replaceChar pat rep (s ++ t) = replaceChar pat rep s ++ replaceChar pat rep t := by
  induction s with
  | nil => simp [replaceChar]
  | cons c s ih => simp [replaceChar, ih]

lemma replaceChar_of_not_mem (pat : Char) (rep : List Char) (s : List Char)
    (h : pat ∉ s) : replaceChar pat rep s = s := by
  induction s with
  | nil => rfl
  | cons c s ih =>
    simp only [List.mem_cons, not_or] at h
    have hc : (c == pat) = false := by
      simp only [beq_eq_false_iff_ne, ne_eq]
      exact fun hcp => h.1 hcp.symm
    simp [replaceChar, hc, ih h.2]

/-- C2 counterexample: the references `a/b:t` and `a--b:t` are distinct but
produce the same container name. -/
theorem container_name_not_injective_cex :
    get_container_name "a/b:t".data = get_container_name "a--b:t".data ∧
      "a/b:t".data ≠ "a--b:t".data := by
  constructor
  · rfl
  · decide

/-- C2 (amended): for a fixed configured base, distinct tags containing
neither `'/'` nor `':'` yield distinct container names; full injectivity over
arbitrary reference strings fails (see the counterexample). -/
theorem container_name_injective_fixed_base (base t₁ t₂ : List Char)
    (h₁ : '/' ∉ t₁) (h₁' : ':' ∉ t₁) (h₂ : '/' ∉ t₂) (h₂' : ':' ∉ t₂)
    (hne : t₁ ≠ t₂) :
    get_container_name (base ++ ':' :: t₁) ≠ get_container_name (base ++ ':' :: t₂) := by
  intro heq
  apply hne
  unfold get_container_name at heq
  have expand : ∀ t : List Char, '/' ∉ t → ':' ∉ t →
      replaceChar ':' ['-'] (replaceChar '/' ['-', '-'] (base ++ ':' :: t)) =
        replaceChar ':' ['-'] (replaceChar '/' ['-', '-'] base) ++ '-' :: t := by
    intro t ht ht'
    rw [replaceChar_append]
    have h1 : replaceChar '/' ['-', '-'] (':' :: t) = ':' :: t := by
      apply replaceChar_of_not_mem
      simp only [List.mem_cons, not_or]
      exact ⟨by decide, ht⟩
    rw [h1, replaceChar_append, show (':' :: t) = [':'] ++ t from rfl,
      replaceChar_append]
    have h2 : replaceChar ':' ['-'] t = t := replaceChar_of_not_mem _ _ _ ht'
    simp [replaceChar, h2]
  rw [expand t₁ h₁ h₁', expand t₂ h₂ h₂'] at heq
  have h1 := List.append_cancel_left heq
  have h2 := List.append_cancel_left h1
  injection h2

/-- Witness for C2 (amended) at base `acme/app`, tags `v1` and `v2`. -/
theorem container_name_injective_fixed_base_witness :
    get_container_name ("acme/app".data ++ ':' :: "v1".data) ≠
      get_container_name ("acme/app".data ++ ':' :: "v2".data) :=
  container_name_injective_fixed_base "acme/app".data "v1".data "v2".data
    (by decide) (by decide) (by decide) (by decide) (by decide)

/-! ### C4: fixed-base resolution -/

/-- C4: in fixed-base mode, resolution fails exactly when the path has no
non-`'/'` character (no segment); when the segment list of the stripped path
starts with a non-empty segment, the result is `{IMAGE}:{first-segment}`
with the residual path the remaining segments joined by `'/'`; and the
concrete Scenario A instance: path `v1/health` with base `acme/app` yields
reference `acme/app:v1` and residual `health`. -/
theorem fixed_base_resolution_correct :
    (∀ IMAGE p : List Char,
        resolve_image_and_path IMAGE p = none ↔ ∀ c ∈ p, c = '/') ∧
    (∀ (IMAGE p : List Char) (tag : List Char) (rest : List (List Char)),
        splitSlashes (stripSlashes p) = tag :: rest → tag ≠ [] →
        resolve_image_and_path IMAGE p =
          some (IMAGE ++ ':' :: tag, joinSlashes rest)) ∧
    resolve_image_and_path "acme/app".data "v1/health".data =
      some ("acme/app:v1".data, "health".data) := by
  refine ⟨resolve_eq_none_iff, ?_, by decide⟩
  intro IMAGE p tag rest hsplit htag
  unfold resolve_image_and_path
  rw [hsplit]
  simp [htag]

/-- Witness for C4: the positive clause applied at base `acme/app`,
path `v1/health`. -/
theorem fixed_base_resolution_correct_witness :
    resolve_image_and_path "acme/app".data "v1/health".data =
      some ("acme/app".data ++ ':' :: "v1".data, joinSlashes ["health".data]) :=
  fixed_base_resolution_correct.2.1 "acme/app".data "v1/health".data
    "v1".data ["health".data] (by decide) (by decide)

/-! ## Access ledger (`resource_last_access`, a Python dict) -/

/-- The access ledger: image name to last-access timestamp. -/
abbrev Ledger := List (List Char × Int)

/-- Python `d.get(k)`. -/
def lookupKey (k : List Char) : Ledger → Option Int
  | [] => none
  | (k', v) :: rest => if k' = k then some v else lookupKey k rest

/-- Python `del d[k]` (keys are unique in a dict; removes the first binding). -/
def eraseKey (k : List Char) : Ledger → Ledger
  | [] => []
  | (k', v) :: rest => if k' = k then rest else (k', v) :: eraseKey k rest

/-- Python `d[k] = v`: update in place if present, else append. -/
def setKey (k : List Char) (v : Int) : Ledger → Ledger
  | [] => [(k, v)]
  | (k', v') :: rest => if k' = k then (k', v) :: rest else (k', v') :: setKey k v rest

/-! ## Idle reaper (`cleanup_idle_resources`, main.py:111-174)

One iteration of the `while True` loop body, under the lock. The Docker
client is an oracle record: each field gives the outcome of one API call
made during the cycle. -/

/-- A container as reported by `client.containers.list`, with the value of
its `dev.gemini.proxy.image-name` label (if present) and its status. -/
structure RContainer where
  name : List Char
  label : Option (List Char)
  status : List Char

/-- Outcome of `container.stop()`. -/
inductive StopOutcome
  | ok
  | raises
deriving DecidableEq

/-- Outcome of `client.images.remove(image, force=False)`: success, the
`ImageNotFound` exception, the `APIError` exception (in-use conflict), or
any other exception. -/
inductive RemoveOutcome
  | ok
  | imageNotFound
  | apiError
  | otherError
deriving DecidableEq

/-- Docker-client oracle for one reaper cycle. -/
structure ReaperWorld where
  /-- whether the part-1 `client.containers.list` call succeeds -/
  scanOk : Bool
  /-- its result: containers carrying the proxy label -/
  containersListed : List RContainer
  /-- outcome of `container.stop()`, by container name -/
  stopOutcome : List Char → StopOutcome
  /-- whether the part-2 `client.containers.list(status=running)` call succeeds -/
  runningOk : Bool
  /-- its result: the currently running labelled containers -/
  runningListed : List RContainer
  /-- Classification `is_local_image` (main.py:84-109): total, it catches its own errors -/
  is_local_image : List Char → Bool
  /-- outcome of `client.images.remove`, by image name -/
  removeOutcome : List Char → RemoveOutcome

/-- Default of `CONTAINER_TIMEOUT` (main.py:33). -/
def CONTAINER_TIMEOUT : Int := 300

/-- Default of `IMAGE_TIMEOUT` (main.py:36). -/
def IMAGE_TIMEOUT : Int := 1800

/-- Observable reaper actions: `container.stop()` and
`client.images.remove(...)` calls. -/
inductive REvent
  | stop (name : List Char)
  | removeImage (image : List Char)
deriving DecidableEq

/-- The part-1 `for` loop (main.py:122-131): stop each labelled container
whose ledger entry is idle past `CONTAINER_TIMEOUT`. A raising `stop()`
aborts the loop (the surrounding `try` wraps the whole loop, main.py:120-133),
so the remaining containers are skipped; the exception is caught there. -/
def stopIdle (w : ReaperWorld) (ledger : Ledger) (now : Int) :
    List RContainer → List REvent
  | [] => []
  | c :: rest =>
    match c.label with
    | none => stopIdle w ledger now rest
    | some img =>
      match lookupKey img ledger with
      | none => stopIdle w ledger now rest
      | some last =>
        if last ≠ 0 ∧ now - last > CONTAINER_TIMEOUT then
          if c.status = "running".data then
            match w.stopOutcome c.name with
            | .ok => REvent.stop c.name :: stopIdle w ledger now rest
            | .raises => [REvent.stop c.name]
          else stopIdle w ledger now rest
        else stopIdle w ledger now rest

/-- Part 1 of the cycle (main.py:119-133): the whole scan-and-stop loop is
inside one `try`; a failing `list` call yields no stops. -/
def containerScanEvents (w : ReaperWorld) (ledger : Ledger) (now : Int) : List REvent :=
  if w.scanOk then stopIdle w ledger now w.containersListed else []

/-- Set `active_images` (main.py:139-144): label values of the running labelled
containers reported after the container pass. -/
def activeImages (running : List RContainer) : List (List Char) :=
  running.foldr (fun c acc =>
    match c.label with
    | some img => img :: acc
    | none => acc) []

/-- The classification loop (main.py:147-157): each ledger entry with no
running container and idle past `IMAGE_TIMEOUT` goes to `images_to_untrack`
if locally-originated, else to `images_to_remove` (order preserved). -/
def classifyEntries (w : ReaperWorld) (active : List (List Char)) (now : Int) :
    Ledger → List (List Char) × List (List Char)
  | [] => ([], [])
  | (img, last) :: rest =>
    let p := classifyEntries w active now rest
    if img ∉ active ∧ now - last > IMAGE_TIMEOUT then
      if w.is_local_image img then (img :: p.1, p.2) else (p.1, img :: p.2)
    else p

/-- The removal loop (main.py:163-174): per-image `try`; on success or
`ImageNotFound` the ledger entry is deleted, on `APIError` (in-use) or any
other exception it is kept. The `remove` call itself happens for every
candidate. -/
def removeLoop (w : ReaperWorld) : List (List Char) → Ledger → Ledger × List REvent
  | [], led => (led, [])
  | img :: rest, led =>
    match w.removeOutcome img with
    | .ok =>
      let p := removeLoop w rest (eraseKey img led)
      (p.1, REvent.removeImage img :: p.2)
    | .imageNotFound =>
      let p := removeLoop w rest (eraseKey img led)
      (p.1, REvent.removeImage img :: p.2)
    | .apiError =>
      let p := removeLoop w rest led
      (p.1, REvent.removeImage img :: p.2)
    | .otherError =>
      let p := removeLoop w rest led
      (p.1, REvent.removeImage img :: p.2)

/-- One cycle of `cleanup_idle_resources` (main.py:114-174): container pass,
then the artifact pass recomputing the active set from a fresh running-
container listing. That listing (main.py:140) is not inside any `try`, so
its failure escapes the cycle (modelled as `Except.error`). Returns the new
ledger and the trace of stop/remove calls. -/
def cleanup_idle_resources (w : ReaperWorld) (ledger : Ledger) (now : Int) :
    Except Unit (Ledger × List REvent) :=
  let evs1 := containerScanEvents w ledger now
  if w.runningOk then
    let active := activeImages w.runningListed
    let cls := classifyEntries w active now ledger
    let ledger1 := cls.1.foldl (fun led img => eraseKey img led) ledger
    let p := removeLoop w cls.2 ledger1
    Except.ok (p.1, evs1 ++ p.2)
  else
    Except.error ()

/-! ### Concrete reaper worlds for counterexamples and witnesses -/

/-- Two tracked images, both last accessed at time 1. -/
def reaperLedgerCex : Ledger := [("img1".data, 1), ("img2".data, 1)]

/-- Two running labelled containers. -/
def reaperContainersCex : List RContainer :=
  [⟨"c1".data, some "img1".data, "running".data⟩,
   ⟨"c2".data, some "img2".data, "running".data⟩]

/-- All Docker calls succeed. -/
def reaperWorldStopOk : ReaperWorld :=
  { scanOk := true
    containersListed := reaperContainersCex
    stopOutcome := fun _ => StopOutcome.ok
    runningOk := true
    runningListed := []
    is_local_image := fun _ => true
    removeOutcome := fun _ => RemoveOutcome.ok }

/-- Same world, but stopping container `c1` raises. -/
def reaperWorldStopRaises : ReaperWorld :=
  { reaperWorldStopOk with
      stopOutcome := fun n => if n = "c1".data then StopOutcome.raises else StopOutcome.ok }

/-- Same world, but the artifact-pass running-container listing raises. -/
def reaperWorldListRaises : ReaperWorld :=
  { reaperWorldStopOk with runningOk := false }

/-- C3 counterexample: at time 1000 both containers are idle past
`CONTAINER_TIMEOUT`, and when every call succeeds both are stopped; but when
stopping `c1` raises, `c2` is not stopped in that cycle (the single `try`
around the part-1 loop aborts the remaining entries), and when the
artifact-pass running listing raises, the error escapes the cycle. -/
theorem reaper_error_isolation_cex :
    cleanup_idle_resources reaperWorldStopOk reaperLedgerCex 1000 =
      Except.ok (reaperLedgerCex, [REvent.stop "c1".data, REvent.stop "c2".data]) ∧
    cleanup_idle_resources reaperWorldStopRaises reaperLedgerCex 1000 =
      Except.ok (reaperLedgerCex, [REvent.stop "c1".data]) ∧
    cleanup_idle_resources reaperWorldListRaises reaperLedgerCex 1000 =
      Except.error () :=
  ⟨rfl, rfl, rfl⟩

/-! ### Lemmas about the reaper -/

lemma removeLoop_events (w : ReaperWorld) :
    ∀ (cands : List (List Char)) (led : Ledger),
      (removeLoop w cands led).2 = cands.map REvent.removeImage := by
  intro cands
  induction cands with
  | nil => intro led; rfl
  | cons img rest ih =>
    intro led
    cases h : w.removeOutcome img <;> simp [removeLoop, h, ih]

lemma stopIdle_events (w : ReaperWorld) (ledger : Ledger) (now : Int) :
    ∀ (cs : List RContainer), ∀ e ∈ stopIdle w ledger now cs,
      ∃ nm, e = REvent.stop nm := by
  intro cs
  induction cs with
  | nil => intro e he; simp [stopIdle] at he
  | cons c rest ih =>
    intro e he
    rw [stopIdle] at he
    cases hl : c.label with
    | none => simp only [hl] at he; exact ih e he
    | some img =>
      simp only [hl] at he
      cases hlk : lookupKey img ledger with
      | none => simp only [hlk] at he; exact ih e he
      | some last =>
        simp only [hlk] at he
        by_cases hidle : last ≠ 0 ∧ now - last > CONTAINER_TIMEOUT
        · rw [if_pos hidle] at he
          by_cases hst : c.status = "running".data
          · rw [if_pos hst] at he
            cases hso : w.stopOutcome c.name with
            | ok =>
              rw [hso] at he
              rcases List.mem_cons.mp he with h | h
              · exact ⟨c.name, h⟩
              · exact ih e h
            | raises =>
              rw [hso] at he
              exact ⟨c.name, List.mem_singleton.mp he⟩
          · rw [if_neg hst] at he; exact ih e he
        · rw [if_neg hidle] at he; exact ih e he

lemma containerScanEvents_stop (w : ReaperWorld) (ledger : Ledger) (now : Int) :
    ∀ e ∈ containerScanEvents w ledger now, ∃ nm, e = REvent.stop nm := by
  intro e he
  unfold containerScanEvents at he
  by_cases h : w.scanOk
  · rw [if_pos h] at he; exact stopIdle_events w ledger now _ e he
  · rw [if_neg h] at he; simp at he

lemma mem_classifyFst (w : ReaperWorld) (active : List (List Char)) (now : Int) :
    ∀ (led : Ledger) (img : List Char),
      img ∈ (classifyEntries w active now led).1 → w.is_local_image img = true := by
  intro led
  induction led with
  | nil => intro img h; simp [classifyEntries] at h
  | cons e rest ih =>
    intro img h
    obtain ⟨i, last⟩ := e
    rw [classifyEntries] at h
    by_cases hc : i ∉ active ∧ now - last > IMAGE_TIMEOUT
    · rw [if_pos hc] at h
      cases hl : w.is_local_image i with
      | true =>
        simp only [hl, if_true] at h
        rcases List.mem_cons.mp h with h' | h'
        · rw [h']; exact hl
        · exact ih img h'
      | false =>
        simp only [hl, Bool.false_eq_true, if_false] at h
        exact ih img h
    · rw [if_neg hc] at h
      exact ih img h

lemma mem_classifySnd (w : ReaperWorld) (active : List (List Char)) (now : Int) :
    ∀ (led : Ledger) (img : List Char),
      img ∈ (classifyEntries w active now led).2 →
        img ∉ active ∧ w.is_local_image img = false := by
  intro led
  induction led with
  | nil => intro img h; simp [classifyEntries] at h
  | cons e rest ih =>
    intro img h
    obtain ⟨i, last⟩ := e
    rw [classifyEntries] at h
    by_cases hc : i ∉ active ∧ now - last > IMAGE_TIMEOUT
    · rw [if_pos hc] at h
      cases hl : w.is_local_image i with
      | true =>
        simp only [hl, if_true] at h
        exact ih img h
      | false =>
        simp only [hl, Bool.false_eq_true, if_false] at h
        rcases List.mem_cons.mp h with h' | h'
        · rw [h']; exact ⟨hc.1, hl⟩
        · exact ih img h'
    · rw [if_neg hc] at h
      exact ih img h

lemma classify_mem (w : ReaperWorld) (active : List (List Char)) (now : Int) :
    ∀ (led : Ledger) (img : List Char) (last : Int),
      (img, last) ∈ led → img ∉ active → now - last > IMAGE_TIMEOUT →
      (w.is_local_image img = true → img ∈ (classifyEntries w active now led).1) ∧
      (w.is_local_image img = false → img ∈ (classifyEntries w active now led).2) := by
  intro led
  induction led with
  | nil => intro img last h; simp at h
  | cons e rest ih =>
    intro img last hmem hact hidle
    obtain ⟨i, l⟩ := e
    rw [classifyEntries]
    rcases List.mem_cons.mp hmem with heq | hrest
    · obtain ⟨rfl, rfl⟩ := Prod.mk.injEq .. ▸ heq
      have hc : img ∉ active ∧ now - last > IMAGE_TIMEOUT := ⟨hact, hidle⟩
      rw [if_pos hc]
      cases hl : w.is_local_image img with
      | true => simp [hl]
      | false => simp [hl]
    · have := ih img last hrest hact hidle
      by_cases hc : i ∉ active ∧ now - l > IMAGE_TIMEOUT
      · rw [if_pos hc]
        cases hl : w.is_local_image i with
        | true =>
          simp only [hl, if_true]
          exact ⟨fun h => List.mem_cons_of_mem _ (this.1 h), this.2⟩
        | false =>
          simp only [hl, Bool.false_eq_true, if_false]
          exact ⟨this.1, fun h => List.mem_cons_of_mem _ (this.2 h)⟩
      · rw [if_neg hc]
        exact this

lemma lookup_eq_none_of_not_mem_keys :
    ∀ (l : Ledger) (k : List Char), k ∉ l.map Prod.fst → lookupKey k l = none := by
  intro l
  induction l with
  | nil => intro k _; rfl
  | cons e rest ih =>
    intro k hk
    obtain ⟨a, v⟩ := e
    simp only [List.map_cons, List.mem_cons, not_or] at hk
    rw [lookupKey, if_neg (fun h => hk.1 h.symm)]
    exact ih k hk.2

lemma lookup_eraseKey_self :
    ∀ (l : Ledger) (k : List Char), (l.map Prod.fst).Nodup →
      lookupKey k (eraseKey k l) = none := by
  intro l
  induction l with
  | nil => intro k _; rfl
  | cons e rest ih =>
    intro k hnodup
    obtain ⟨a, v⟩ := e
    simp only [List.map_cons, List.nodup_cons] at hnodup
    by_cases h : a = k
    · rw [eraseKey, if_pos h]
      exact lookup_eq_none_of_not_mem_keys rest k (h ▸ hnodup.1)
    · rw [eraseKey, if_neg h, lookupKey, if_neg h]
      exact ih k hnodup.2

lemma lookup_none_eraseKey :
    ∀ (l : Ledger) (k k' : List Char), lookupKey k l = none →
      lookupKey k (eraseKey k' l) = none := by
  intro l
  induction l with
  | nil => intro k k' _; rfl
  | cons e rest ih =>
    intro k k' hl
    obtain ⟨a, v⟩ := e
    rw [lookupKey] at hl
    by_cases hak : a = k
    · rw [if_pos hak] at hl; cases hl
    · rw [if_neg hak] at hl
      by_cases hak' : a = k'
      · rw [eraseKey, if_pos hak']; exact hl
      · rw [eraseKey, if_neg hak', lookupKey, if_neg hak]
        exact ih k k' hl

lemma eraseKey_sublist : ∀ (l : Ledger) (k : List Char), (eraseKey k l).Sublist l := by
  intro l
  induction l with
  | nil => intro k; exact List.Sublist.refl _
  | cons e rest ih =>
    intro k
    obtain ⟨a, v⟩ := e
    by_cases h : a = k
    · rw [eraseKey, if_pos h]
      exact List.sublist_cons_self _ _
    · rw [eraseKey, if_neg h]
      exact List.Sublist.cons₂ _ (ih k)

lemma eraseKey_mem_ne :
    ∀ (l : Ledger) (k : List Char) (v : Int) (k' : List Char),
      (k, v) ∈ l → k ≠ k' → (k, v) ∈ eraseKey k' l := by
  intro l
  induction l with
  | nil => intro k v k' h; simp at h
  | cons e rest ih =>
    intro k v k' hmem hne
    obtain ⟨a, b⟩ := e
    rcases List.mem_cons.mp hmem with heq | hrest
    · obtain ⟨rfl, rfl⟩ := Prod.mk.injEq .. ▸ heq
      rw [eraseKey, if_neg (fun h => hne h)]
      exact List.mem_cons_self _ _
    · by_cases h : a = k'
      · rw [eraseKey, if_pos h]; exact hrest
      · rw [eraseKey, if_neg h]
        exact List.mem_cons_of_mem _ (ih k v k' hrest hne)

lemma foldl_erase_lookup_none :
    ∀ (us : List (List Char)) (led : Ledger) (k : List Char),
      lookupKey k led = none →
      lookupKey k (us.foldl (fun l i => eraseKey i l) led) = none := by
  intro us
  induction us with
  | nil => intro led k h; exact h
  | cons u us ih =>
    intro led k h
    exact ih (eraseKey u led) k (lookup_none_eraseKey led k u h)

lemma foldl_erase_sublist :
    ∀ (us : List (List Char)) (led : Ledger),
      (us.foldl (fun l i => eraseKey i l) led).Sublist led := by
  intro us
  induction us with
  | nil => intro led; exact List.Sublist.refl _
  | cons u us ih =>
    intro led
    exact (ih (eraseKey u led)).trans (eraseKey_sublist led u)

lemma foldl_erase_lookup_of_mem :
    ∀ (us : List (List Char)) (led : Ledger) (k : List Char),
      (led.map Prod.fst).Nodup → k ∈ us →
      lookupKey k (us.foldl (fun l i => eraseKey i l) led) = none := by
  intro us
  induction us with
  | nil => intro led k _ h; simp at h
  | cons u us ih =>
    intro led k hnodup hk
    by_cases huk : u = k
    · subst huk
      exact foldl_erase_lookup_none us (eraseKey u led) u
        (lookup_eraseKey_self led u hnodup)
    · rcases List.mem_cons.mp hk with h | h
      · exact absurd h.symm huk
      · exact ih (eraseKey u led) k
          (hnodup.sublist ((eraseKey_sublist led u).map Prod.fst)) h

lemma foldl_erase_mem :
    ∀ (us : List (List Char)) (led : Ledger) (k : List Char) (v : Int),
      (k, v) ∈ led → k ∉ us →
      (k, v) ∈ us.foldl (fun l i => eraseKey i l) led := by
  intro us
  induction us with
  | nil => intro led k v h _; exact h
  | cons u us ih =>
    intro led k v hmem hk
    simp only [List.mem_cons, not_or] at hk
    exact ih (eraseKey u led) k v
      (eraseKey_mem_ne led k v u hmem (fun h => hk.1 h)) hk.2

lemma removeLoop_fst_sublist (w : ReaperWorld) :
    ∀ (cands : List (List Char)) (led : Ledger),
      ((removeLoop w cands led).1).Sublist led := by
  intro cands
  induction cands with
  | nil => intro led; exact List.Sublist.refl _
  | cons c rest ih =>
    intro led
    cases h : w.removeOutcome c <;>
      simp only [removeLoop, h] <;>
      first
        | exact (ih (eraseKey c led)).trans (eraseKey_sublist led c)
        | exact ih led

lemma removeLoop_lookup_none (w : ReaperWorld) :
    ∀ (cands : List (List Char)) (led : Ledger) (k : List Char),
      lookupKey k led = none → lookupKey k (removeLoop w cands led).1 = none := by
  intro cands
  induction cands with
  | nil => intro led k h; exact h
  | cons c rest ih =>
    intro led k h
    cases hc : w.removeOutcome c <;>
      simp only [removeLoop, hc] <;>
      first
        | exact ih (eraseKey c led) k (lookup_none_eraseKey led k c h)
        | exact ih led k h

lemma removeLoop_lookup_of_mem (w : ReaperWorld) :
    ∀ (cands : List (List Char)) (led : Ledger) (k : List Char),
      (led.map Prod.fst).Nodup → k ∈ cands →
      (w.removeOutcome k = RemoveOutcome.ok ∨
        w.removeOutcome k = RemoveOutcome.imageNotFound) →
      lookupKey k (removeLoop w cands led).1 = none := by
  intro cands
  induction cands with
  | nil => intro led k _ h; simp at h
  | cons c rest ih =>
    intro led k hnodup hk hout
    by_cases hck : c = k
    · subst hck
      rcases hout with h | h <;>
        simp only [removeLoop, h] <;>
        exact removeLoop_lookup_none w rest (eraseKey c led) c
          (lookup_eraseKey_self led c hnodup)
    · have hk' : k ∈ rest := by
        rcases List.mem_cons.mp hk with h | h
        · exact absurd h.symm hck
        · exact h
      cases hc : w.removeOutcome c <;>
        simp only [removeLoop, hc] <;>
        first
          | exact ih (eraseKey c led) k
              (hnodup.sublist ((eraseKey_sublist led c).map Prod.fst)) hk' hout
          | exact ih led k hnodup hk' hout

lemma removeLoop_mem_apiError (w : ReaperWorld) :
    ∀ (cands : List (List Char)) (led : Ledger) (k : List Char) (v : Int),
      (k, v) ∈ led → w.removeOutcome k = RemoveOutcome.apiError →
      (k, v) ∈ (removeLoop w cands led).1 := by
  intro cands
  induction cands with
  | nil => intro led k v h _; exact h
  | cons c rest ih =>
    intro led k v hmem hout
    cases hc : w.removeOutcome c <;> simp only [removeLoop, hc]
    · exact ih (eraseKey c led) k v
        (eraseKey_mem_ne led k v c hmem
          (fun hkc => by rw [hkc, hc] at hout; cases hout)) hout
    · exact ih (eraseKey c led) k v
        (eraseKey_mem_ne led k v c hmem
          (fun hkc => by rw [hkc, hc] at hout; cases hout)) hout
    · exact ih led k v hmem hout
    · exact ih led k v hmem hout

/-- C3 (amended): per-entry stop errors abort the remaining container-pass
entries (see the counterexample) but are caught at the pass level, so the
artifact pass still runs; the removal loop is isolated per entry, attempting
every candidate whatever the earlier outcomes; and the cycle completes
whenever the artifact-pass running-container listing succeeds (its failure
is the only error that escapes the cycle; none reaches a client, the reaper
being a detached background thread). -/
theorem reaper_cycle_completes_and_attempts_all_removals
    (w : ReaperWorld) (ledger : Ledger) (now : Int) (hrun : w.runningOk = true) :
    ∃ led evs, cleanup_idle_resources w ledger now = Except.ok (led, evs) ∧
      ∀ img ∈ (classifyEntries w (activeImages w.runningListed) now ledger).2,
        REvent.removeImage img ∈ evs := by
  simp only [cleanup_idle_resources]
  rw [if_pos hrun]
  refine ⟨_, _, rfl, ?_⟩
  intro img hmem
  apply List.mem_append_right
  rw [removeLoop_events]
  exact List.mem_map_of_mem _ hmem

/-- Witness for C3 (amended) in the world where stopping `c1` raises. -/
theorem reaper_cycle_completes_witness :
    ∃ led evs,
      cleanup_idle_resources reaperWorldStopRaises reaperLedgerCex 1000 =
        Except.ok (led, evs) ∧
      ∀ img ∈ (classifyEntries reaperWorldStopRaises
          (activeImages reaperWorldStopRaises.runningListed) 1000 reaperLedgerCex).2,
        REvent.removeImage img ∈ evs :=
  reaper_cycle_completes_and_attempts_all_removals
    reaperWorldStopRaises reaperLedgerCex 1000 rfl

/-- C7: the cycle's event trace is the container-pass stops followed by the
artifact-pass removals, and every image whose removal is attempted is absent
from the active set computed from the fresh running-container listing taken
after the container pass. -/
theorem reaper_container_pass_before_artifact_pass
    (w : ReaperWorld) (ledger : Ledger) (now : Int) (hrun : w.runningOk = true) :
    ∃ led evs1 evs2,
      cleanup_idle_resources w ledger now = Except.ok (led, evs1 ++ evs2) ∧
      (∀ e ∈ evs1, ∃ nm, e = REvent.stop nm) ∧
      (∀ e ∈ evs2, ∃ img, e = REvent.removeImage img ∧
        img ∉ activeImages w.runningListed) := by
  simp only [cleanup_idle_resources]
  rw [if_pos hrun]
  refine ⟨_, _, _, rfl, containerScanEvents_stop w ledger now, ?_⟩
  intro e he
  rw [removeLoop_events] at he
  obtain ⟨img, hmemi, rfl⟩ := List.mem_map.mp he
  exact ⟨img, rfl, (mem_classifySnd w _ now ledger img hmemi).1⟩

/-- Witness for C7 in the all-calls-succeed world. -/
theorem reaper_ordering_witness :
    ∃ led evs1 evs2,
      cleanup_idle_resources reaperWorldStopOk reaperLedgerCex 1000 =
        Except.ok (led, evs1 ++ evs2) ∧
      (∀ e ∈ evs1, ∃ nm, e = REvent.stop nm) ∧
      (∀ e ∈ evs2, ∃ img, e = REvent.removeImage img ∧
        img ∉ activeImages reaperWorldStopOk.runningListed) :=
  reaper_container_pass_before_artifact_pass reaperWorldStopOk reaperLedgerCex 1000 rfl

/-- C6: in the artifact pass, a ledger entry with no running container and
idle past `IMAGE_TIMEOUT` is (a) dropped with no removal call when the image
is locally-originated, (b) dropped after an attempted removal on success or
image-already-absent, and (c) retained (with the cycle still completing)
when the non-forced removal hits an in-use `APIError` conflict. -/
theorem artifact_pass_per_entry
    (w : ReaperWorld) (ledger : Ledger) (now : Int) (img : List Char) (last : Int)
    (hrun : w.runningOk = true)
    (hnodup : (ledger.map Prod.fst).Nodup)
    (hmem : (img, last) ∈ ledger)
    (hact : img ∉ activeImages w.runningListed)
    (hidle : now - last > IMAGE_TIMEOUT) :
    ∃ led evs, cleanup_idle_resources w ledger now = Except.ok (led, evs) ∧
      (w.is_local_image img = true →
        lookupKey img led = none ∧ REvent.removeImage img ∉ evs) ∧
      (w.is_local_image img = false →
        ((w.removeOutcome img = RemoveOutcome.ok ∨
            w.removeOutcome img = RemoveOutcome.imageNotFound) →
          lookupKey img led = none ∧ REvent.removeImage img ∈ evs) ∧
        (w.removeOutcome img = RemoveOutcome.apiError → (img, last) ∈ led)) := by
  simp only [cleanup_idle_resources]
  rw [if_pos hrun]
  set active := activeImages w.runningListed with hactive
  set cls := classifyEntries w active now ledger with hcls
  set ledger1 := cls.1.foldl (fun led img => eraseKey img led) ledger with hledger1
  refine ⟨_, _, rfl, ?_, ?_⟩
  · intro hlocal
    constructor
    · have himgU : img ∈ cls.1 :=
        (classify_mem w active now ledger img last hmem hact hidle).1 hlocal
      exact removeLoop_lookup_none w cls.2 ledger1 img
        (foldl_erase_lookup_of_mem cls.1 ledger img hnodup himgU)
    · intro habs
      rcases List.mem_append.mp habs with h | h
      · obtain ⟨nm, hnm⟩ := containerScanEvents_stop w ledger now _ h
        simp at hnm
      · rw [removeLoop_events] at h
        obtain ⟨i, hi, hie⟩ := List.mem_map.mp h
        have hieq : i = img := by injection hie
        subst hieq
        have := (mem_classifySnd w active now ledger i hi).2
        rw [this] at hlocal
        cases hlocal
  · intro hlocal
    have himgR : img ∈ cls.2 :=
      (classify_mem w active now ledger img last hmem hact hidle).2 hlocal
    constructor
    · intro hout
      constructor
      · have hnd1 : (ledger1.map Prod.fst).Nodup :=
          hnodup.sublist ((foldl_erase_sublist cls.1 ledger).map Prod.fst)
        exact removeLoop_lookup_of_mem w cls.2 ledger1 img hnd1 himgR hout
      · apply List.mem_append_right
        rw [removeLoop_events]
        exact List.mem_map_of_mem _ himgR
    · intro hout
      have himgNotU : img ∉ cls.1 := by
        intro h
        have := mem_classifyFst w active now ledger img h
        rw [this] at hlocal
        cases hlocal
      exact removeLoop_mem_apiError w cls.2 ledger1 img last
        (foldl_erase_mem cls.1 ledger img last hmem himgNotU) hout

/-- Concrete world for the C6 witness: one stale tracked image `img1`, last
accessed at time 1, no containers, checked at time 2000 (idle past
`IMAGE_TIMEOUT = 1800`); it is remote-originated and its removal hits an
in-use conflict, so the entry must be retained. -/
def reaperWorldApiError : ReaperWorld :=
  { scanOk := true
    containersListed := []
    stopOutcome := fun _ => StopOutcome.ok
    runningOk := true
    runningListed := []
    is_local_image := fun _ => false
    removeOutcome := fun _ => RemoveOutcome.apiError }

/-- Witness for C6 at the in-use-conflict world. -/
theorem artifact_pass_per_entry_witness :
    ∃ led evs,
      cleanup_idle_resources reaperWorldApiError [("img1".data, 1)] 2000 =
        Except.ok (led, evs) ∧
      (reaperWorldApiError.is_local_image "img1".data = true →
        lookupKey "img1".data led = none ∧ REvent.removeImage "img1".data ∉ evs) ∧
      (reaperWorldApiError.is_local_image "img1".data = false →
        ((reaperWorldApiError.removeOutcome "img1".data = RemoveOutcome.ok ∨
            reaperWorldApiError.removeOutcome "img1".data = RemoveOutcome.imageNotFound) →
          lookupKey "img1".data led = none ∧ REvent.removeImage "img1".data ∈ evs) ∧
        (reaperWorldApiError.removeOutcome "img1".data = RemoveOutcome.apiError →
          ("img1".data, (1 : Int)) ∈ led)) :=
  artifact_pass_per_entry reaperWorldApiError [("img1".data, 1)] 2000 "img1".data 1
    rfl (by decide) (by decide) (by decide) (by decide)

/-! ## The proxy request handler (`proxy`, main.py:192-273)

One request processed sequentially; the Docker client and the network are
an oracle record. The result carries the HTTP status returned to the
caller, the trace of side-effecting calls, and the ledger after the
request. -/

/-- Outcome of `client.images.pull` (main.py:205): success, the
`ImageNotFound` exception, or any other exception. -/
inductive PullOutcome
  | ok
  | imageNotFound
  | otherError
deriving DecidableEq

/-- Outcome of `client.containers.run` (main.py:223-230). -/
inductive RunOutcome
  | ok
  | raises
deriving DecidableEq

/-- Oracle for one request: outcome of each Docker/network call `proxy`
makes, in program order. `poll k` is the outcome of the `k`-th health probe
(main.py:237), and `pollBudget` is how many probes fit in
`CONTAINER_STARTUP_TIMEOUT` before the wall clock expires. -/
structure ProxyWorld where
  /-- whether `client.images.get(image_name_found)` succeeds (main.py:201) -/
  imageExistsLocally : Bool
  /-- outcome of `client.images.pull` when the image is absent -/
  pull : PullOutcome
  /-- whether `client.containers.get(container_name)` succeeds (main.py:216) -/
  containerExists : Bool
  /-- outcome of `client.containers.run` -/
  run : RunOutcome
  /-- connectivity of the `k`-th health probe -/
  poll : Nat → Bool
  /-- number of health probes before the 30s startup timeout elapses -/
  pollBudget : Nat
  /-- whether the rollback `target_container.stop()` (main.py:245) raises -/
  stopRaises : Bool
  /-- Field where `none` models a `requests.exceptions.RequestException` while
  forwarding (main.py:271); `some st` a proxied upstream status `st` -/
  forward : Option Nat

/-- Observable side effects of one request. -/
inductive PEvent
  | pullImage
  | runContainer (name : List Char)
  | stopContainer (name : List Char)
  | forwardRequest (name : List Char)
deriving DecidableEq

/-- Result of one request: status code returned to the caller, trace of
Docker/network calls, and the ledger afterwards. -/
structure ProxyResult where
  status : Nat
  events : List PEvent
  ledger : Ledger
deriving DecidableEq

/-- The health-gate loop (main.py:235-242): probe until the first
successful connection or until the startup timeout allows no further
probe. -/
def healthGateFrom (poll : Nat → Bool) : Nat → Nat → Bool
  | _, 0 => false
  | k, b + 1 => if poll k then true else healthGateFrom poll (k + 1) b

/-- Whether the health gate marks the new container ready. -/
def healthGate (poll : Nat → Bool) (budget : Nat) : Bool :=
  healthGateFrom poll 0 budget

/-- The tail of `proxy` once `service_ready` is true (main.py:254-273):
refresh the ledger entry, then forward; a network failure while forwarding
returns 502. -/
def forwardPhase (w : ProxyWorld) (cname iname : List Char) (ledger : Ledger)
    (now : Int) (evs : List PEvent) : ProxyResult :=
  let ledger' := setKey iname now ledger
  match w.forward with
  | none => ⟨502, evs ++ [PEvent.forwardRequest cname], ledger'⟩
  | some st => ⟨st, evs ++ [PEvent.forwardRequest cname], ledger'⟩

/-- The lock-protected provisioning section and what follows
(main.py:214-273): existence check, creation, health gate with rollback,
then the 504 check, ledger refresh and forwarding. -/
def provisionAndForward (w : ProxyWorld) (cname iname : List Char)
    (ledger : Ledger) (now : Int) (evs : List PEvent) : ProxyResult :=
  if w.containerExists then
    forwardPhase w cname iname ledger now evs
  else
    match w.run with
    | .raises => ⟨500, evs, ledger⟩
    | .ok =>
      let evs1 := evs ++ [PEvent.runContainer cname]
      if healthGate w.poll w.pollBudget then
        forwardPhase w cname iname ledger now evs1
      else
        if w.stopRaises then
          -- the raising rollback stop is caught at main.py:246, which calls
          -- stop once more and returns 500
          ⟨500, evs1 ++ [PEvent.stopContainer cname, PEvent.stopContainer cname], ledger⟩
        else
          ⟨504, evs1 ++ [PEvent.stopContainer cname], ledger⟩

/-- Handler `proxy` (main.py:192-273): resolve, ensure the image is present
(pulling on demand), then provision and forward. -/
def proxy (w : ProxyWorld) (IMAGE : List Char) (ledger : Ledger) (now : Int)
    (path : List Char) : ProxyResult :=
  match resolve_image_and_path IMAGE path with
  | none => ⟨404, [], ledger⟩
  | some (image_name_found, _remaining_path) =>
    let container_name := get_container_name image_name_found
    if w.imageExistsLocally then
      provisionAndForward w container_name image_name_found ledger now []
    else
      match w.pull with
      | .imageNotFound => ⟨404, [PEvent.pullImage], ledger⟩
      | .otherError => ⟨500, [PEvent.pullImage], ledger⟩
      | .ok => provisionAndForward w container_name image_name_found ledger now
          [PEvent.pullImage]

/-! ### Lemmas about the proxy -/

lemma healthGateFrom_false (poll : Nat → Bool) (hp : ∀ k, poll k = false) :
    ∀ (b k : Nat), healthGateFrom poll k b = false := by
  intro b
  induction b with
  | zero => intro k; rfl
  | succ b ih =>
    intro k
    rw [healthGateFrom, hp k]
    simpa using ih (k + 1)

lemma lookup_setKey_self :
    ∀ (l : Ledger) (k : List Char) (v : Int), lookupKey k (setKey k v l) = some v := by
  intro l
  induction l with
  | nil => intro k v; simp [setKey, lookupKey]
  | cons e rest ih =>
    intro k v
    obtain ⟨a, b⟩ := e
    by_cases h : a = k
    · rw [setKey, if_pos h, lookupKey, if_pos h]
    · rw [setKey, if_neg h, lookupKey, if_neg h]
      exact ih k v

lemma lookup_setKey_ne :
    ∀ (l : Ledger) (k k' : List Char) (v : Int), k' ≠ k →
      lookupKey k' (setKey k v l) = lookupKey k' l := by
  intro l
  induction l with
  | nil =>
    intro k k' v hne
    have h : ¬(k = k') := fun h => hne h.symm
    simp [setKey, lookupKey, h]
  | cons e rest ih =>
    intro k k' v hne
    obtain ⟨a, b⟩ := e
    by_cases h : a = k
    · rw [setKey, if_pos h, lookupKey, lookupKey,
        if_neg (fun h' => hne (h'.symm.trans h)),
        if_neg (fun h' => hne (h'.symm.trans h))]
    · rw [setKey, if_neg h, lookupKey, lookupKey]
      by_cases h' : a = k'
      · rw [if_pos h', if_pos h']
      · rw [if_neg h', if_neg h']
        exact ih k k' v hne

lemma forwardPhase_ledger (w : ProxyWorld) (cname iname : List Char)
    (ledger : Ledger) (now : Int) (evs : List PEvent) :
    (forwardPhase w cname iname ledger now evs).ledger = setKey iname now ledger := by
  unfold forwardPhase
  cases w.forward <;> rfl

lemma forwardPhase_status_none (w : ProxyWorld) (cname iname : List Char)
    (ledger : Ledger) (now : Int) (evs : List PEvent) (hf : w.forward = none) :
    (forwardPhase w cname iname ledger now evs).status = 502 := by
  unfold forwardPhase
  rw [hf]

lemma provisionAndForward_ready (w : ProxyWorld) (cname iname : List Char)
    (ledger : Ledger) (now : Int) (evs : List PEvent)
    (hready : w.containerExists = true ∨
      (w.run = RunOutcome.ok ∧ healthGate w.poll w.pollBudget = true)) :
    ∃ evs', provisionAndForward w cname iname ledger now evs =
      forwardPhase w cname iname ledger now evs' := by
  cases hc : w.containerExists with
  | true => exact ⟨evs, by simp [provisionAndForward, hc]⟩
  | false =>
    rcases hready with h | ⟨h1, h2⟩
    · rw [hc] at h; cases h
    · exact ⟨evs ++ [PEvent.runContainer cname],
        by simp [provisionAndForward, hc, h1, h2]⟩

lemma proxy_ready (w : ProxyWorld) (IMAGE : List Char) (ledger : Ledger)
    (now : Int) (path img rest : List Char)
    (hres : resolve_image_and_path IMAGE path = some (img, rest))
    (himg : w.imageExistsLocally = true ∨ w.pull = PullOutcome.ok)
    (hready : w.containerExists = true ∨
      (w.run = RunOutcome.ok ∧ healthGate w.poll w.pollBudget = true)) :
    ∃ evs', proxy w IMAGE ledger now path =
      forwardPhase w (get_container_name img) img ledger now evs' := by
  cases hex : w.imageExistsLocally with
  | true =>
    obtain ⟨evs', he⟩ :=
      provisionAndForward_ready w (get_container_name img) img ledger now [] hready
    exact ⟨evs', by simp only [proxy, hres]; simp [hex, he]⟩
  | false =>
    have hpull : w.pull = PullOutcome.ok := by
      rcases himg with h | h
      · rw [hex] at h; cases h
      · exact h
    obtain ⟨evs', he⟩ := provisionAndForward_ready w (get_container_name img) img
      ledger now [PEvent.pullImage] hready
    exact ⟨evs', by simp only [proxy, hres]; simp [hex, hpull, he]⟩

/-- Concrete world for the C5 counterexample and witness: image present,
container absent, the run call succeeds, no probe ever connects, the
rollback stop succeeds. -/
def proxyWorldTimeout : ProxyWorld :=
  { imageExistsLocally := true
    pull := PullOutcome.ok
    containerExists := false
    run := RunOutcome.ok
    poll := fun _ => false
    pollBudget := 60
    stopRaises := false
    forward := some 200 }

/-- Same health-timeout execution, but the rollback `target_container.stop()`
at main.py:245 raises (realistic with `remove=True`: a crashed container is
auto-removed, so `stop()` raises `NotFound`). -/
def proxyWorldTimeoutStopRaises : ProxyWorld :=
  { proxyWorldTimeout with stopRaises := true }

/-- C5 counterexample: when the health gate times out and the rollback stop
itself raises, the exception is caught at main.py:246-249 and the caller
receives 500, not the claimed 504 — though the stop call is still issued
and no ledger entry is created. -/
theorem health_timeout_stop_raises_cex :
    (proxy proxyWorldTimeoutStopRaises "acme/app".data [] 100
        "v1/health".data).status = 500 ∧
    (proxy proxyWorldTimeoutStopRaises "acme/app".data [] 100
        "v1/health".data).status ≠ 504 ∧
    PEvent.stopContainer (get_container_name "acme/app:v1".data) ∈
      (proxy proxyWorldTimeoutStopRaises "acme/app".data [] 100
        "v1/health".data).events ∧
    (proxy proxyWorldTimeoutStopRaises "acme/app".data [] 100
        "v1/health".data).ledger = [] :=
  ⟨rfl, by decide, by decide, rfl⟩

/-- C5 (amended): when the container does not exist, creation succeeds but
no health probe ever connects, a rollback `stop` of the created container is
issued and the ledger is left unchanged (no entry is created for the
reference); the caller gets 504 when the rollback stop succeeds and 500 when
the rollback stop itself raises (the exception is caught at main.py:246-249,
which stops again and returns 500 before the 504 check is reached). -/
theorem health_timeout_rollback
    (w : ProxyWorld) (IMAGE : List Char) (ledger : Ledger) (now : Int)
    (path img rest : List Char)
    (hres : resolve_image_and_path IMAGE path = some (img, rest))
    (himg : w.imageExistsLocally = true ∨ w.pull = PullOutcome.ok)
    (hc : w.containerExists = false)
    (hr : w.run = RunOutcome.ok)
    (hp : ∀ k, w.poll k = false) :
    (proxy w IMAGE ledger now path).status =
      (if w.stopRaises then 500 else 504) ∧
    PEvent.stopContainer (get_container_name img) ∈
      (proxy w IMAGE ledger now path).events ∧
    (proxy w IMAGE ledger now path).ledger = ledger := by
  have hgate : healthGate w.poll w.pollBudget = false :=
    healthGateFrom_false w.poll hp w.pollBudget 0
  cases hex : w.imageExistsLocally with
  | true =>
    simp only [proxy, hres]
    cases hst : w.stopRaises with
    | true => simp [hex, provisionAndForward, hc, hr, hgate, hst]
    | false => simp [hex, provisionAndForward, hc, hr, hgate, hst]
  | false =>
    have hpull : w.pull = PullOutcome.ok := by
      rcases himg with h | h
      · rw [hex] at h; cases h
      · exact h
    simp only [proxy, hres]
    cases hst : w.stopRaises with
    | true => simp [hex, hpull, provisionAndForward, hc, hr, hgate, hst]
    | false => simp [hex, hpull, provisionAndForward, hc, hr, hgate, hst]

/-- Witness for C5 (amended) at base `acme/app`, path `v1/health`, empty
ledger, with a succeeding rollback stop. -/
theorem health_timeout_rollback_witness :
    (proxy proxyWorldTimeout "acme/app".data [] 100 "v1/health".data).status =
      (if proxyWorldTimeout.stopRaises then 500 else 504) ∧
    PEvent.stopContainer (get_container_name "acme/app:v1".data) ∈
      (proxy proxyWorldTimeout "acme/app".data [] 100 "v1/health".data).events ∧
    (proxy proxyWorldTimeout "acme/app".data [] 100 "v1/health".data).ledger = [] :=
  health_timeout_rollback proxyWorldTimeout "acme/app".data [] 100
    "v1/health".data "acme/app:v1".data "health".data
    (by decide) (Or.inl rfl) rfl rfl (fun _ => rfl)

/-- C9: a network failure while forwarding yields 502 to the caller, and the
ledger entry of every other reference is unchanged. -/
theorem forward_failure_502_ledger_isolated
    (w : ProxyWorld) (IMAGE : List Char) (ledger : Ledger) (now : Int)
    (path img rest r' : List Char)
    (hres : resolve_image_and_path IMAGE path = some (img, rest))
    (himg : w.imageExistsLocally = true ∨ w.pull = PullOutcome.ok)
    (hready : w.containerExists = true ∨
      (w.run = RunOutcome.ok ∧ healthGate w.poll w.pollBudget = true))
    (hf : w.forward = none)
    (hr' : r' ≠ img) :
    (proxy w IMAGE ledger now path).status = 502 ∧
    lookupKey r' (proxy w IMAGE ledger now path).ledger = lookupKey r' ledger := by
  obtain ⟨evs', heq⟩ := proxy_ready w IMAGE ledger now path img rest hres himg hready
  rw [heq]
  refine ⟨forwardPhase_status_none w _ img ledger now evs' hf, ?_⟩
  rw [forwardPhase_ledger]
  exact lookup_setKey_ne ledger img r' now hr'

/-- Concrete world for the C9 and C10 witnesses: container already exists,
forwarding hits a network failure. -/
def proxyWorldForwardFail : ProxyWorld :=
  { imageExistsLocally := true
    pull := PullOutcome.ok
    containerExists := true
    run := RunOutcome.ok
    poll := fun _ => true
    pollBudget := 60
    stopRaises := false
    forward := none }

/-- Witness for C9: the ledger entry of the unrelated reference `other`
survives the forwarding failure untouched. -/
theorem forward_failure_502_ledger_isolated_witness :
    (proxy proxyWorldForwardFail "acme/app".data [("other".data, 7)] 100
        "v1/health".data).status = 502 ∧
    lookupKey "other".data
        (proxy proxyWorldForwardFail "acme/app".data [("other".data, 7)] 100
          "v1/health".data).ledger =
      lookupKey "other".data [("other".data, 7)] :=
  forward_failure_502_ledger_isolated proxyWorldForwardFail "acme/app".data
    [("other".data, 7)] 100 "v1/health".data "acme/app:v1".data "health".data
    "other".data (by decide) (Or.inl rfl) (Or.inl rfl) rfl (by decide)

/-- C10: once provisioning passes, the ledger entry for the resolved
reference is set to the current time before forwarding, so it reads `now`
afterwards even when the forward fails with 502. -/
theorem ledger_refreshed_before_forward
    (w : ProxyWorld) (IMAGE : List Char) (ledger : Ledger) (now : Int)
    (path img rest : List Char)
    (hres : resolve_image_and_path IMAGE path = some (img, rest))
    (himg : w.imageExistsLocally = true ∨ w.pull = PullOutcome.ok)
    (hready : w.containerExists = true ∨
      (w.run = RunOutcome.ok ∧ healthGate w.poll w.pollBudget = true)) :
    lookupKey img (proxy w IMAGE ledger now path).ledger = some now ∧
    (w.forward = none → (proxy w IMAGE ledger now path).status = 502) := by
  obtain ⟨evs', heq⟩ := proxy_ready w IMAGE ledger now path img rest hres himg hready
  rw [heq]
  constructor
  · rw [forwardPhase_ledger]
    exact lookup_setKey_self ledger img now
  · intro hf
    exact forwardPhase_status_none w _ img ledger now evs' hf

/-- Witness for C10: after the failed forward the entry for `acme/app:v1`
holds the request time 100. -/
theorem ledger_refreshed_before_forward_witness :
    lookupKey "acme/app:v1".data
        (proxy proxyWorldForwardFail "acme/app".data [] 100 "v1/health".data).ledger =
      some 100 ∧
    (proxyWorldForwardFail.forward = none →
      (proxy proxyWorldForwardFail "acme/app".data [] 100 "v1/health".data).status = 502) :=
  ledger_refreshed_before_forward proxyWorldForwardFail "acme/app".data [] 100
    "v1/health".data "acme/app:v1".data "health".data
    (by decide) (Or.inl rfl) (Or.inl rfl)

/-! ## C1: single-flight provisioning under concurrent requests

`n` concurrent first-time requests for one reference `R`, with a healthy
runtime (the health gate succeeds; no reaper runs). The whole provisioning
section of `proxy` (main.py:214-250) — existence check, `containers.run`,
health gate — executes while holding `container_lock`, so no other
request's provisioning can interleave with it; each request's critical
section is therefore one atomic step of the interleaving semantics.
`instances` counts live containers for `R`, `creates` counts
`containers.run` calls for `R`. -/

/-- Program counter of one request: before or after its critical section. -/
inductive ReqPC
  | start
  | done
deriving DecidableEq

/-- Global state: per-request program counters, live instances of `R`, and
the number of `containers.run` calls made for `R`. -/
structure FlightState (n : Nat) where
  pc : Fin n → ReqPC
  instances : Nat
  creates : Nat

/-- Initial state of a cold-start stampede: no instance, no create yet. -/
def flightInit (n : Nat) : FlightState n :=
  ⟨fun _ => ReqPC.start, 0, 0⟩

/-- One scheduler step: some request `i` acquires the lock and runs its
whole critical section. `hit`: `client.containers.get` finds the container
(main.py:216-218). `miss`: it raises `NotFound`, so the request creates the
container and health-gates it successfully (main.py:219-242). -/
inductive FlightStep {n : Nat} : FlightState n → FlightState n → Prop
  | hit (s : FlightState n) (i : Fin n) (hpc : s.pc i = ReqPC.start)
      (hex : 0 < s.instances) :
      FlightStep s ⟨Function.update s.pc i ReqPC.done, s.instances, s.creates⟩
  | miss (s : FlightState n) (i : Fin n) (hpc : s.pc i = ReqPC.start)
      (hex : s.instances = 0) :
      FlightStep s ⟨Function.update s.pc i ReqPC.done, s.instances + 1, s.creates + 1⟩

/-- States reachable from the cold-start stampede. -/
inductive FlightReach {n : Nat} : FlightState n → Prop
  | init : FlightReach (flightInit n)
  | step {s t : FlightState n} : FlightReach s → FlightStep s t → FlightReach t

lemma flight_invariant {n : Nat} (s : FlightState n) (h : FlightReach s) :
    s.instances = s.creates ∧ s.creates ≤ 1 ∧
      ∀ i, s.pc i = ReqPC.done → s.creates = 1 := by
  induction h with
  | init =>
    exact ⟨rfl, Nat.zero_le 1, fun i hi => by simp [flightInit] at hi⟩
  | @step s t hr hstep ih =>
    obtain ⟨h1, h2, h3⟩ := ih
    cases hstep with
    | hit i hpc hex =>
      refine ⟨h1, h2, fun j _ => ?_⟩
      show s.creates = 1
      omega
    | miss i hpc hex =>
      refine ⟨?_, ?_, fun j _ => ?_⟩
      · show s.instances + 1 = s.creates + 1
        omega
      · show s.creates + 1 ≤ 1
        omega
      · show s.creates + 1 = 1
        omega

/-- C1: in every reachable state of an `n`-request cold-start stampede for
one reference, at most one instance of the reference is live and at most
one `containers.run` call has been made; once every request has completed
(and there is at least one), exactly one create happened. -/
theorem single_flight_provisioning {n : Nat} (s : FlightState n)
    (h : FlightReach s) :
    s.instances ≤ 1 ∧ s.creates ≤ 1 ∧
      ((∀ i, s.pc i = ReqPC.done) → 0 < n → s.creates = 1) := by
  obtain ⟨h1, h2, h3⟩ := flight_invariant s h
  exact ⟨h1 ▸ h2, h2, fun hall hn => h3 ⟨0, hn⟩ (hall ⟨0, hn⟩)⟩

/-- State after request 0's critical section creates the container. -/
def flightS1 : FlightState 2 :=
  ⟨Function.update (flightInit 2).pc 0 ReqPC.done,
    (flightInit 2).instances + 1, (flightInit 2).creates + 1⟩

/-- State after request 1 then finds the existing container. -/
def flightS2 : FlightState 2 :=
  ⟨Function.update flightS1.pc 1 ReqPC.done, flightS1.instances, flightS1.creates⟩

/-- Witness for C1: a two-request stampede run to completion performs
exactly one create. -/
theorem single_flight_provisioning_witness : flightS2.creates = 1 :=
  (single_flight_provisioning flightS2
    (FlightReach.step
      (FlightReach.step FlightReach.init
        (FlightStep.miss (flightInit 2) 0 rfl rfl))
      (FlightStep.hit flightS1 1 (by decide) (by decide)))).2.2
    (by decide) (by decide)

/-! ## C8: full-path resolution mode (spec-modelled)

The spec describes two resolver strategies collapsed from two near-variant
sources; the variant implementing full-path mode is not under `src/` —
`src/src/main.py` requires `IMAGE` and exits at startup when it is unset
(main.py:23-27). The full-path resolver is therefore modelled from the
spec and the claim is settled against that model. -/

/-- Modelled from the spec: walk decreasing-length prefixes of the path
segments, from the full path (`n` segments) down to a single segment; a
candidate resolves if the artifact exists locally or, failing that, a pull
succeeds; the residual path is everything after the accepted prefix. -/
def walkImageCandidates (existsLocally pullOk : List Char → Bool)
    (parts : List (List Char)) : Nat → Option (List Char × List Char)
  | 0 => none
  | k + 1 =>
    let cand := joinSlashes (parts.take (k + 1))
    if existsLocally cand then some (cand, joinSlashes (parts.drop (k + 1)))
    else if pullOk cand then some (cand, joinSlashes (parts.drop (k + 1)))
    else walkImageCandidates existsLocally pullOk parts k

/-- Modelled from the spec: full-path resolution of a request path (no
configured base): try prefixes of the segment list, longest first. -/
def resolve_full_path (existsLocally pullOk : List Char → Bool)
    (path : List Char) : Option (List Char × List Char) :=
  let parts := splitSlashes (stripSlashes path)
  walkImageCandidates existsLocally pullOk parts parts.length

/-- Modelled from the spec: resolver-mode selection — full-path mode is
used exactly when no base image is configured. -/
def resolve_request (IMAGE : List Char) (existsLocally pullOk : List Char → Bool)
    (path : List Char) : Option (List Char × List Char) :=
  if IMAGE = [] then resolve_full_path existsLocally pullOk path
  else resolve_image_and_path IMAGE path

lemma walkImageCandidates_spec (el pk : List Char → Bool)
    (parts : List (List Char)) :
    ∀ (n : Nat) (r rest : List Char),
      walkImageCandidates el pk parts n = some (r, rest) →
      ∃ k, 0 < k ∧ k ≤ n ∧ r = joinSlashes (parts.take k) ∧
        (el r || pk r) = true ∧ rest = joinSlashes (parts.drop k) ∧
        ∀ j, k < j → j ≤ n →
          (el (joinSlashes (parts.take j)) || pk (joinSlashes (parts.take j)))
            = false := by
  intro n
  induction n with
  | zero => intro r rest h; cases h
  | succ n ih =>
    intro r rest h
    rw [walkImageCandidates] at h
    by_cases hel : el (joinSlashes (parts.take (n + 1)))
    · rw [if_pos hel] at h
      obtain ⟨rfl, rfl⟩ := Prod.mk.injEq .. ▸ Option.some.inj h
      exact ⟨n + 1, Nat.succ_pos n, Nat.le_refl _, rfl, by simp [hel], rfl,
        fun j hj hj' => absurd (Nat.lt_of_lt_of_le hj hj') (Nat.lt_irrefl _)⟩
    · rw [if_neg hel] at h
      by_cases hpk : pk (joinSlashes (parts.take (n + 1)))
      · rw [if_pos hpk] at h
        obtain ⟨rfl, rfl⟩ := Prod.mk.injEq .. ▸ Option.some.inj h
        exact ⟨n + 1, Nat.succ_pos n, Nat.le_refl _, rfl, by simp [hpk], rfl,
          fun j hj hj' => absurd (Nat.lt_of_lt_of_le hj hj') (Nat.lt_irrefl _)⟩
      · rw [if_neg hpk] at h
        obtain ⟨k, hk0, hkn, hr, hor, hrest, hmax⟩ := ih r rest h
        refine ⟨k, hk0, Nat.le_succ_of_le hkn, hr, hor, hrest, ?_⟩
        intro j hj hj'
        rcases Nat.lt_or_ge j (n + 1) with hlt | hge
        · exact hmax j hj (Nat.lt_succ_iff.mp hlt)
        · have : j = n + 1 := Nat.le_antisymm hj' hge
          subst this
          simp [Bool.of_not_eq_true hel, Bool.of_not_eq_true hpk]

lemma walkImageCandidates_none (el pk : List Char → Bool)
    (parts : List (List Char)) :
    ∀ n : Nat,
      (∀ k, 0 < k → k ≤ n →
        (el (joinSlashes (parts.take k)) || pk (joinSlashes (parts.take k)))
          = false) →
      walkImageCandidates el pk parts n = none := by
  intro n
  induction n with
  | zero => intro _; rfl
  | succ n ih =>
    intro h
    have hcur := h (n + 1) (Nat.succ_pos n) (Nat.le_refl _)
    rw [Bool.or_eq_false_iff] at hcur
    rw [walkImageCandidates]
    simp only [hcur.1, hcur.2, if_false]
    exact ih fun k hk0 hkn => h k hk0 (Nat.le_succ_of_le hkn)

/-- C8: with no configured base the resolver is the full-path walk; a
successful full-path resolution returns the longest segment prefix that
exists locally or pulls successfully, with the remaining segments joined as
the residual path (every longer prefix having failed both probes); and if
no prefix resolves, resolution fails. -/
theorem full_path_mode_resolution (el pk : List Char → Bool) (path : List Char) :
    resolve_request [] el pk path = resolve_full_path el pk path ∧
    (∀ r rest, resolve_full_path el pk path = some (r, rest) →
      ∃ k, 0 < k ∧ k ≤ (splitSlashes (stripSlashes path)).length ∧
        r = joinSlashes ((splitSlashes (stripSlashes path)).take k) ∧
        (el r || pk r) = true ∧
        rest = joinSlashes ((splitSlashes (stripSlashes path)).drop k) ∧
        ∀ j, k < j → j ≤ (splitSlashes (stripSlashes path)).length →
          (el (joinSlashes ((splitSlashes (stripSlashes path)).take j)) ||
            pk (joinSlashes ((splitSlashes (stripSlashes path)).take j)))
            = false) ∧
    ((∀ k, 0 < k → k ≤ (splitSlashes (stripSlashes path)).length →
        (el (joinSlashes ((splitSlashes (stripSlashes path)).take k)) ||
          pk (joinSlashes ((splitSlashes (stripSlashes path)).take k)))
          = false) →
      resolve_full_path el pk path = none) := by
  refine ⟨rfl, ?_, ?_⟩
  · intro r rest h
    exact walkImageCandidates_spec el pk (splitSlashes (stripSlashes path))
      (splitSlashes (stripSlashes path)).length r rest h
  · intro h
    exact walkImageCandidates_none el pk (splitSlashes (stripSlashes path))
      (splitSlashes (stripSlashes path)).length h

/-- Witness for C8: when no candidate prefix exists or pulls, resolution of
`a/b` fails. -/
theorem full_path_mode_resolution_witness :
    resolve_full_path (fun _ => false) (fun _ => false) "a/b".data = none :=
  (full_path_mode_resolution (fun _ => false) (fun _ => false) "a/b".data).2.2
    (fun _ _ _ => rfl)

end PreviewProxy
